import Mathlib

/-!
Shallow embedding of `src/objective/regression_objective.hpp` (LightGBM
regression objective functions): the four loss variants `RegressionL2loss`,
`RegressionL1loss`, `RegressionHuberLoss`, `RegressionFairLoss`, their
`Init` / `GetGradients` / `GetName` operations, and the derivative-smoothing
utility they call.  Machine floating-point values are embedded as exact
rationals; per-example arrays are embedded as functions `ℕ → ℚ` (inputs
borrowed via pointers) and as `List ℚ` (caller-owned output buffers).
A `GetGradients` loop writing `buf[i]` for `i ∈ [0, num_data)` is embedded
as `overwrite`, which keeps any tail of the buffer beyond the written range.
-/

namespace LightGBM

/-- Configuration snapshot consumed at construction: numeric fields
`gaussian_eta`, `huber_delta`, `fair_c` (header `ObjectiveConfig`). -/
structure ObjectiveConfig where
  gaussian_eta : ℚ
  huber_delta : ℚ
  fair_c : ℚ

/-- Metadata collaborator: `label()` is a borrowed per-example vector,
`weights()` is either a borrowed vector or null (`none`). -/
structure Metadata where
  label : ℕ → ℚ
  weights : Option (ℕ → ℚ)

/-- Embedding of a `for (i = 0; i < n; ++i) buf[i] = f i;` loop over a
caller-owned buffer: positions below `n` receive `f i`, positions at or
beyond `n` keep their previous contents.  The result has the buffer's
length. -/
def overwrite (n : ℕ) (f : ℕ → ℚ) (buf : List ℚ) : List ℚ :=
  (List.range buf.length).map (fun i => if i < n then f i else buf.getD i 0)

/-- Modelled from the spec: `Common::ApproximateHessianWithGaussian`, the
Derivative-Smoothing Utility of §4.6, is declared in
`LightGBM/utils/common.h`, which is not part of the visible source; only
its call sites appear in `regression_objective.hpp`.  The spec states its
contract (a curvature estimate from the score, label, already-computed
gradient `g`, bandwidth `eta`, and optional weight `w`, strictly positive
for all finite inputs, continuous, damped by larger `eta`, and scaling
linearly with `w` like the gradient does) and leaves the exact kernel an
implementation choice.  This model uses a rational bump kernel
`2·|g|·w / (eta · (1 + (score − label)²))`, which satisfies every property
the spec requires of the kernel whenever `eta > 0`, `w > 0`, `g ≠ 0`. -/
def ApproximateHessianWithGaussian (score label g eta w : ℚ) : ℚ :=
  2 * |g| * w / (eta * (1 + (score - label) ^ 2))

/-! ## RegressionL2loss ("regression") -/

/-- State of a `RegressionL2loss` instance after `Init`: `num_data_`,
borrowed `label_`, borrowed-or-null `weights_`. -/
structure RegressionL2loss where
  num_data : ℕ
  label : ℕ → ℚ
  weights : Option (ℕ → ℚ)

/-- Constructor (ignores the config) followed by `Init(metadata, num_data)`:
binds `num_data_`, `label_`, `weights_`. -/
def RegressionL2loss.Init (_config : ObjectiveConfig) (metadata : Metadata)
    (num_data : ℕ) : RegressionL2loss :=
  ⟨num_data, metadata.label, metadata.weights⟩

/-- `RegressionL2loss::GetGradients`: branch once on `weights_ == nullptr`;
unweighted writes `gradients[i] = score[i] - label_[i]`, `hessians[i] = 1`;
weighted writes `gradients[i] = (score[i] - label_[i]) * weights_[i]`,
`hessians[i] = weights_[i]`. -/
def RegressionL2loss.GetGradients (self : RegressionL2loss) (score : ℕ → ℚ)
    (gradients hessians : List ℚ) : List ℚ × List ℚ :=
  match self.weights with
  | none =>
    (overwrite self.num_data (fun i => score i - self.label i) gradients,
     overwrite self.num_data (fun _ => (1 : ℚ)) hessians)
  | some w =>
    (overwrite self.num_data (fun i => (score i - self.label i) * w i) gradients,
     overwrite self.num_data (fun i => w i) hessians)

/-- `RegressionL2loss::GetName` returns `"regression"`. -/
def RegressionL2loss.GetName (_self : RegressionL2loss) : String :=
  "regression"

/-! ## RegressionL1loss ("regression_l1") -/

/-- State of a `RegressionL1loss` instance: the common bound data plus the
bandwidth `eta_` captured from `config.gaussian_eta` at construction. -/
structure RegressionL1loss where
  num_data : ℕ
  label : ℕ → ℚ
  weights : Option (ℕ → ℚ)
  eta : ℚ

/-- Constructor (captures `eta_ = config.gaussian_eta`) followed by
`Init(metadata, num_data)`. -/
def RegressionL1loss.Init (config : ObjectiveConfig) (metadata : Metadata)
    (num_data : ℕ) : RegressionL1loss :=
  ⟨num_data, metadata.label, metadata.weights, config.gaussian_eta⟩

/-- `RegressionL1loss::GetGradients`: per index, `diff = score[i] - label_[i]`;
gradient is `1` when `diff ≥ 0` else `-1` (unweighted), or `weights_[i]` /
`-weights_[i]` (weighted); the hessian is the smoothing utility applied to
`score[i]`, `label_[i]`, the just-written gradient, `eta_` (and the weight
in the weighted branch; the unweighted call uses the default `w = 1`). -/
def RegressionL1loss.GetGradients (self : RegressionL1loss) (score : ℕ → ℚ)
    (gradients hessians : List ℚ) : List ℚ × List ℚ :=
  match self.weights with
  | none =>
    (overwrite self.num_data
      (fun i => if score i - self.label i ≥ 0 then (1 : ℚ) else -1) gradients,
     overwrite self.num_data
      (fun i => ApproximateHessianWithGaussian (score i) (self.label i)
        (if score i - self.label i ≥ 0 then (1 : ℚ) else -1) self.eta 1) hessians)
  | some w =>
    (overwrite self.num_data
      (fun i => if score i - self.label i ≥ 0 then w i else -(w i)) gradients,
     overwrite self.num_data
      (fun i => ApproximateHessianWithGaussian (score i) (self.label i)
        (if score i - self.label i ≥ 0 then w i else -(w i)) self.eta (w i)) hessians)

/-- `RegressionL1loss::GetName` returns `"regression_l1"`. -/
def RegressionL1loss.GetName (_self : RegressionL1loss) : String :=
  "regression_l1"

/-! ## RegressionHuberLoss ("huber") -/

/-- State of a `RegressionHuberLoss` instance: common bound data plus
`delta_` (from `config.huber_delta`) and `eta_` (from `config.gaussian_eta`)
captured at construction. -/
structure RegressionHuberLoss where
  num_data : ℕ
  label : ℕ → ℚ
  weights : Option (ℕ → ℚ)
  delta : ℚ
  eta : ℚ

/-- Constructor (captures `delta_`, `eta_`) followed by
`Init(metadata, num_data)`. -/
def RegressionHuberLoss.Init (config : ObjectiveConfig) (metadata : Metadata)
    (num_data : ℕ) : RegressionHuberLoss :=
  ⟨num_data, metadata.label, metadata.weights, config.huber_delta,
    config.gaussian_eta⟩

/-- The per-residual Huber gradient value written by the unweighted branch
of `RegressionHuberLoss::GetGradients`: `diff` itself when `|diff| ≤ delta_`,
otherwise `delta_` for `diff ≥ 0` and `-delta_` for `diff < 0`. -/
def huberGradient (delta d : ℚ) : ℚ :=
  if |d| ≤ delta then d else if d ≥ 0 then delta else -delta

/-- `RegressionHuberLoss::GetGradients`: per index, `diff = score[i] - label_[i]`;
when `|diff| ≤ delta_` the quadratic branch writes `gradients[i] = diff`
(`diff * weights_[i]` weighted) and `hessians[i] = 1` (`weights_[i]`
weighted); otherwise the linear branch writes `delta_` / `-delta_` by the
sign of `diff` (each `* weights_[i]` weighted) and obtains the hessian from
the smoothing utility applied with the just-written saturated gradient. -/
def RegressionHuberLoss.GetGradients (self : RegressionHuberLoss)
    (score : ℕ → ℚ) (gradients hessians : List ℚ) : List ℚ × List ℚ :=
  match self.weights with
  | none =>
    (overwrite self.num_data
      (fun i => huberGradient self.delta (score i - self.label i)) gradients,
     overwrite self.num_data
      (fun i =>
        if |score i - self.label i| ≤ self.delta then (1 : ℚ)
        else ApproximateHessianWithGaussian (score i) (self.label i)
          (if score i - self.label i ≥ 0 then self.delta else -self.delta)
          self.eta 1) hessians)
  | some w =>
    (overwrite self.num_data
      (fun i =>
        if |score i - self.label i| ≤ self.delta
          then (score i - self.label i) * w i
        else if score i - self.label i ≥ 0 then self.delta * w i
        else -self.delta * w i) gradients,
     overwrite self.num_data
      (fun i =>
        if |score i - self.label i| ≤ self.delta then w i
        else ApproximateHessianWithGaussian (score i) (self.label i)
          (if score i - self.label i ≥ 0 then self.delta * w i
            else -self.delta * w i)
          self.eta (w i)) hessians)

/-- `RegressionHuberLoss::GetName` returns `"huber"`. -/
def RegressionHuberLoss.GetName (_self : RegressionHuberLoss) : String :=
  "huber"

/-! ## RegressionFairLoss ("fair") -/

/-- State of a `RegressionFairLoss` instance: common bound data plus `c_`
captured from `config.fair_c` at construction. -/
structure RegressionFairLoss where
  num_data : ℕ
  label : ℕ → ℚ
  weights : Option (ℕ → ℚ)
  c : ℚ

/-- Constructor (captures `c_`) followed by `Init(metadata, num_data)`. -/
def RegressionFairLoss.Init (config : ObjectiveConfig) (metadata : Metadata)
    (num_data : ℕ) : RegressionFairLoss :=
  ⟨num_data, metadata.label, metadata.weights, config.fair_c⟩

/-- The per-residual Fair gradient `c_ * x / (|x| + c_)` written by
`RegressionFairLoss::GetGradients`. -/
def fairGradient (c x : ℚ) : ℚ :=
  c * x / (|x| + c)

/-- The per-residual Fair hessian `c_ * c_ / ((|x| + c_) * (|x| + c_))`
written by `RegressionFairLoss::GetGradients`. -/
def fairHessian (c x : ℚ) : ℚ :=
  c * c / ((|x| + c) * (|x| + c))

/-- `RegressionFairLoss::GetGradients`: per index, `x = score[i] - label_[i]`;
writes `gradients[i] = c_ * x / (|x| + c_)` and
`hessians[i] = c_ * c_ / ((|x| + c_) * (|x| + c_))`, each further multiplied
by `weights_[i]` in the weighted branch. -/
def RegressionFairLoss.GetGradients (self : RegressionFairLoss)
    (score : ℕ → ℚ) (gradients hessians : List ℚ) : List ℚ × List ℚ :=
  match self.weights with
  | none =>
    (overwrite self.num_data
      (fun i => fairGradient self.c (score i - self.label i)) gradients,
     overwrite self.num_data
      (fun i => fairHessian self.c (score i - self.label i)) hessians)
  | some w =>
    (overwrite self.num_data
      (fun i => fairGradient self.c (score i - self.label i) * w i) gradients,
     overwrite self.num_data
      (fun i => fairHessian self.c (score i - self.label i) * w i) hessians)

/-- `RegressionFairLoss::GetName` returns `"fair"`. -/
def RegressionFairLoss.GetName (_self : RegressionFairLoss) : String :=
  "fair"

/-! ## The closed set of loss variants behind the `ObjectiveFunction`
interface -/

/-- A bound objective-function instance: exactly one of the four loss
variants of the header, as seen through the polymorphic
`ObjectiveFunction` interface. -/
inductive LossVariant where
  | squaredError : RegressionL2loss → LossVariant
  | absoluteError : RegressionL1loss → LossVariant
  | huber : RegressionHuberLoss → LossVariant
  | fair : RegressionFairLoss → LossVariant

/-- Virtual dispatch of `GetGradients` over the four variants. -/
def LossVariant.GetGradients : LossVariant → (ℕ → ℚ) → List ℚ → List ℚ →
    List ℚ × List ℚ
  | squaredError st, score, g, h => st.GetGradients score g h
  | absoluteError st, score, g, h => st.GetGradients score g h
  | huber st, score, g, h => st.GetGradients score g h
  | fair st, score, g, h => st.GetGradients score g h

/-- Virtual dispatch of `GetName` over the four variants. -/
def LossVariant.GetName : LossVariant → String
  | squaredError st => st.GetName
  | absoluteError st => st.GetName
  | huber st => st.GetName
  | fair st => st.GetName

/-- The bound `num_data_` of the underlying instance. -/
def LossVariant.numData : LossVariant → ℕ
  | squaredError st => st.num_data
  | absoluteError st => st.num_data
  | huber st => st.num_data
  | fair st => st.num_data

/-- The bound `label_` of the underlying instance. -/
def LossVariant.labelAt : LossVariant → ℕ → ℚ
  | squaredError st => st.label
  | absoluteError st => st.label
  | huber st => st.label
  | fair st => st.label

/-- The bound `weights_` of the underlying instance (null = `none`). -/
def LossVariant.weightsOpt : LossVariant → Option (ℕ → ℚ)
  | squaredError st => st.weights
  | absoluteError st => st.weights
  | huber st => st.weights
  | fair st => st.weights

/-- A `GetGradients` call as a state transition: all four C++ methods are
`const` and have no mutable members; they write only through the
caller-owned output pointers, so the instance after the call is the
instance before it, and the call additionally yields the two output
buffers. -/
def LossVariant.GetGradientsCall (v : LossVariant) (score : ℕ → ℚ)
    (gradients hessians : List ℚ) : (List ℚ × List ℚ) × LossVariant :=
  (v.GetGradients score gradients hessians, v)

/-- The loss kind together with the configuration scalars the chosen
variant captured at construction (`eta_`, `delta_`, `c_`). -/
inductive LossKind where
  | squaredError : LossKind
  | absoluteError : ℚ → LossKind
  | huber : ℚ → ℚ → LossKind
  | fair : ℚ → LossKind

/-- The kind and configuration of a bound instance. -/
def LossVariant.kind : LossVariant → LossKind
  | squaredError _ => LossKind.squaredError
  | absoluteError st => LossKind.absoluteError st.eta
  | huber st => LossKind.huber st.delta st.eta
  | fair st => LossKind.fair st.c

/-- The gradient value each variant writes at one index, as a function of
the configuration, `score[i]`, `label[i]` and the optional `weight[i]`
alone (read off the loop bodies of the four `GetGradients`). -/
def gradPoint : LossKind → ℚ → ℚ → Option ℚ → ℚ
  | LossKind.squaredError, s, l, none => s - l
  | LossKind.squaredError, s, l, some w => (s - l) * w
  | LossKind.absoluteError _, s, l, none => if s - l ≥ 0 then 1 else -1
  | LossKind.absoluteError _, s, l, some w => if s - l ≥ 0 then w else -w
  | LossKind.huber d _, s, l, none => huberGradient d (s - l)
  | LossKind.huber d _, s, l, some w =>
      if |s - l| ≤ d then (s - l) * w
      else if s - l ≥ 0 then d * w else -d * w
  | LossKind.fair c, s, l, none => fairGradient c (s - l)
  | LossKind.fair c, s, l, some w => fairGradient c (s - l) * w

/-- The hessian value each variant writes at one index, as a function of
the configuration, `score[i]`, `label[i]` and the optional `weight[i]`
alone (read off the loop bodies of the four `GetGradients`). -/
def hessPoint : LossKind → ℚ → ℚ → Option ℚ → ℚ
  | LossKind.squaredError, _, _, none => 1
  | LossKind.squaredError, _, _, some w => w
  | LossKind.absoluteError eta, s, l, none =>
      ApproximateHessianWithGaussian s l (if s - l ≥ 0 then 1 else -1) eta 1
  | LossKind.absoluteError eta, s, l, some w =>
      ApproximateHessianWithGaussian s l (if s - l ≥ 0 then w else -w) eta w
  | LossKind.huber d eta, s, l, none =>
      if |s - l| ≤ d then 1
      else ApproximateHessianWithGaussian s l
        (if s - l ≥ 0 then d else -d) eta 1
  | LossKind.huber d eta, s, l, some w =>
      if |s - l| ≤ d then w
      else ApproximateHessianWithGaussian s l
        (if s - l ≥ 0 then d * w else -d * w) eta w
  | LossKind.fair c, s, l, none => fairHessian c (s - l)
  | LossKind.fair c, s, l, some w => fairHessian c (s - l) * w

/-! ## Helper lemmas about the buffer-writing loop -/

theorem overwrite_length (n : ℕ) (f : ℕ → ℚ) (buf : List ℚ) :
    (overwrite n f buf).length = buf.length := by
  simp [overwrite]

theorem overwrite_getD (n : ℕ) (f : ℕ → ℚ) (buf : List ℚ) (i : ℕ)
    (hi : i < n) (hbuf : i < buf.length) :
    (overwrite n f buf).getD i 0 = f i := by
  have hlen : i < (overwrite n f buf).length := by
    rw [overwrite_length]; exact hbuf
  rw [List.getD_eq_getElem _ _ hlen]
  simp [overwrite, hi, hbuf]

theorem overwrite_getElem (n : ℕ) (f : ℕ → ℚ) (buf : List ℚ) (i : ℕ)
    (hi : i < n) (hbuf : i < (overwrite n f buf).length) :
    (overwrite n f buf)[i] = f i := by
  simp [overwrite, hi]

theorem overwrite_eq_map_range (n : ℕ) (f : ℕ → ℚ) (buf : List ℚ)
    (hbuf : buf.length = n) :
    overwrite n f buf = (List.range n).map f := by
  unfold overwrite
  rw [hbuf]
  refine List.map_congr_left ?_
  intro i hi
  rw [List.mem_range] at hi
  simp [hi]

theorem ApproximateHessianWithGaussian_pos (s l gr eta w : ℚ)
    (heta : 0 < eta) (hw : 0 < w) (hgr : gr ≠ 0) :
    0 < ApproximateHessianWithGaussian s l gr eta w := by
  unfold ApproximateHessianWithGaussian
  have h1 : 0 < |gr| := abs_pos.mpr hgr
  have h2 : (0 : ℚ) < 1 + (s - l) ^ 2 := by positivity
  exact div_pos (mul_pos (mul_pos (by norm_num) h1) hw) (mul_pos heta h2)

theorem GetGradients_length (v : LossVariant) (score : ℕ → ℚ)
    (g h : List ℚ) :
    (v.GetGradients score g h).1.length = g.length
    ∧ (v.GetGradients score g h).2.length = h.length := by
  cases v <;> rename_i st <;> cases hw : st.weights <;>
    simp [LossVariant.GetGradients, RegressionL2loss.GetGradients,
      RegressionL1loss.GetGradients, RegressionHuberLoss.GetGradients,
      RegressionFairLoss.GetGradients, hw, overwrite_length]

theorem GetGradients_ext (v : LossVariant) (score : ℕ → ℚ)
    (g h g' h' : List ℚ) (hg : g.length = v.numData)
    (hh : h.length = v.numData) (hg' : g'.length = v.numData)
    (hh' : h'.length = v.numData) :
    v.GetGradients score g h = v.GetGradients score g' h' := by
  cases v <;> rename_i st <;>
    simp only [LossVariant.numData] at hg hh hg' hh' <;>
    cases hw : st.weights <;>
    simp [LossVariant.GetGradients, RegressionL2loss.GetGradients,
      RegressionL1loss.GetGradients, RegressionHuberLoss.GetGradients,
      RegressionFairLoss.GetGradients, hw,
      overwrite_eq_map_range _ _ _ hg, overwrite_eq_map_range _ _ _ hh,
      overwrite_eq_map_range _ _ _ hg', overwrite_eq_map_range _ _ _ hh']

/-! ## Claims -/

/-- C1: For the Squared-Error variant ("regression"), every call to
`GetGradients` writes, for every index `i` in `[0, num_data)`: when no
weight vector is bound, `gradients[i] = score[i] − label[i]` and
`hessians[i] = 1`; when a weight vector is bound,
`gradients[i] = (score[i] − label[i]) · weight[i]` and
`hessians[i] = weight[i]`.  In particular, with `label = [1, 2, 3]` and
`score = [1, 1, 1]` unweighted, the outputs are `gradients = [0, -1, -2]`
and `hessians = [1, 1, 1]`. -/
theorem C1_squared_error_gradients
    (lbl score w : ℕ → ℚ) (n i : ℕ) (hi : i < n)
    (g h : List ℚ) (hg : g.length = n) (hh : h.length = n) :
    (((⟨n, lbl, none⟩ : RegressionL2loss).GetGradients score g h).1.getD i 0
        = score i - lbl i
      ∧ ((⟨n, lbl, none⟩ : RegressionL2loss).GetGradients score g h).2.getD i 0
        = 1)
    ∧ (((⟨n, lbl, some w⟩ : RegressionL2loss).GetGradients score g h).1.getD i 0
        = (score i - lbl i) * w i
      ∧ ((⟨n, lbl, some w⟩ : RegressionL2loss).GetGradients score g h).2.getD i 0
        = w i)
    ∧ (RegressionL2loss.Init ⟨1, 1, 1⟩
          ⟨fun j => ([1, 2, 3] : List ℚ).getD j 0, none⟩ 3).GetGradients
        (fun j => ([1, 1, 1] : List ℚ).getD j 0) [0, 0, 0] [0, 0, 0]
      = ([0, -1, -2], [1, 1, 1]) := by
  have hgi : i < g.length := by rw [hg]; exact hi
  have hhi : i < h.length := by rw [hh]; exact hi
  refine ⟨⟨?_, ?_⟩, ⟨?_, ?_⟩, ?_⟩
  · simpa [RegressionL2loss.GetGradients] using overwrite_getD n _ g i hi hgi
  · simpa [RegressionL2loss.GetGradients] using overwrite_getD n _ h i hi hhi
  · simpa [RegressionL2loss.GetGradients] using overwrite_getD n _ g i hi hgi
  · simpa [RegressionL2loss.GetGradients] using overwrite_getD n _ h i hi hhi
  · simp [RegressionL2loss.Init, RegressionL2loss.GetGradients, overwrite,
      List.range_succ]
    norm_num

/-- Witness for C1 at `label = [1, 2, 3]`, `score ≡ 1`, `n = 3`, `i = 1`,
buffers `[5, 5, 5]`. -/
theorem C1_squared_error_gradients_witness :
    ((1 : ℕ) < 3 ∧ ([5, 5, 5] : List ℚ).length = 3)
    ∧ ((⟨3, fun j => ([1, 2, 3] : List ℚ).getD j 0, none⟩ :
          RegressionL2loss).GetGradients (fun _ => 1)
        [5, 5, 5] [5, 5, 5]).1.getD 1 0 = 1 - ([1, 2, 3] : List ℚ).getD 1 0 :=
  ⟨⟨by decide, by decide⟩,
    (C1_squared_error_gradients (fun j => ([1, 2, 3] : List ℚ).getD j 0)
      (fun _ => 1) (fun _ => 2) 3 1 (by decide) [5, 5, 5] [5, 5, 5]
      (by decide) (by decide)).1.1⟩

/-- C3: For the Absolute-Error variant ("regression_l1"), for every index
`i` with residual `d = score[i] − label[i]`: `gradients[i] = +1` if `d ≥ 0`
and `−1` otherwise (unweighted), or `±weight[i]` with the same sign rule
(weighted); the tie at `d = 0` resolves to the non-negative branch, and
`|gradients[i]|` equals `1` (resp. `weight[i]`, for a non-negative weight)
independent of the residual's magnitude. -/
theorem C3_absolute_error_sign_rule
    (lbl score w : ℕ → ℚ) (n i : ℕ) (eta : ℚ) (hi : i < n)
    (g h : List ℚ) (hg : g.length = n) (hh : h.length = n) :
    (((⟨n, lbl, none, eta⟩ : RegressionL1loss).GetGradients score g h).1.getD i 0
        = (if score i - lbl i ≥ 0 then (1 : ℚ) else -1))
    ∧ |((⟨n, lbl, none, eta⟩ : RegressionL1loss).GetGradients score g h).1.getD i 0|
        = 1
    ∧ (score i = lbl i →
        ((⟨n, lbl, none, eta⟩ : RegressionL1loss).GetGradients score g h).1.getD i 0
          = 1)
    ∧ (((⟨n, lbl, some w, eta⟩ : RegressionL1loss).GetGradients score g h).1.getD i 0
        = (if score i - lbl i ≥ 0 then w i else -(w i)))
    ∧ (0 ≤ w i →
        |((⟨n, lbl, some w, eta⟩ : RegressionL1loss).GetGradients score g h).1.getD i 0|
          = w i) := by
  have hgi : i < g.length := by rw [hg]; exact hi
  have hu : ((⟨n, lbl, none, eta⟩ : RegressionL1loss).GetGradients score g h).1.getD i 0
      = (if score i - lbl i ≥ 0 then (1 : ℚ) else -1) := by
    simpa [RegressionL1loss.GetGradients] using overwrite_getD n _ g i hi hgi
  have hw : ((⟨n, lbl, some w, eta⟩ : RegressionL1loss).GetGradients score g h).1.getD i 0
      = (if score i - lbl i ≥ 0 then w i else -(w i)) := by
    simpa [RegressionL1loss.GetGradients] using overwrite_getD n _ g i hi hgi
  refine ⟨hu, ?_, ?_, hw, ?_⟩
  · rw [hu]
    split <;> norm_num
  · intro hEq
    rw [hu, if_pos (by rw [hEq]; simp)]
  · intro hwi
    rw [hw]
    split
    · exact abs_of_nonneg hwi
    · rw [abs_neg]; exact abs_of_nonneg hwi

/-- Witness for C3 at `label ≡ 4`, `score ≡ 1`, `weight ≡ 2`, `eta = 1`,
`n = 1`, `i = 0`, buffers `[7]`: the residual is negative, so the weighted
gradient is `-2`. -/
theorem C3_absolute_error_sign_rule_witness :
    ((0 : ℕ) < 1 ∧ ([7] : List ℚ).length = 1 ∧ (0 : ℚ) ≤ 2)
    ∧ ((⟨1, fun _ => 4, some (fun _ => 2), 1⟩ :
          RegressionL1loss).GetGradients (fun _ => 1) [7] [7]).1.getD 0 0
        = (if (1 : ℚ) - 4 ≥ 0 then (2 : ℚ) else -2) :=
  ⟨⟨by decide, by decide, by norm_num⟩, by
    have h := (C3_absolute_error_sign_rule (fun _ => 4) (fun _ => 1)
      (fun _ => 2) 1 0 1 (by decide) [7] [7] (by decide) (by decide)).2.2.2.1
    simpa using h⟩

/-- C4: For the Fair variant ("fair") with constant `c`, for every index
`i` with `x = score[i] − label[i]`: `gradients[i] = c·x / (|x| + c)` and
`hessians[i] = c² / (|x| + c)²`, both multiplied by `weight[i]` when a
weight vector is bound.  With `c = 1` and `x = 0`, `gradients[i] = 0` and
`hessians[i] = 1` (unweighted). -/
theorem C4_fair_gradients
    (lbl score w : ℕ → ℚ) (n i : ℕ) (c : ℚ) (hi : i < n)
    (g h : List ℚ) (hg : g.length = n) (hh : h.length = n) :
    (((⟨n, lbl, none, c⟩ : RegressionFairLoss).GetGradients score g h).1.getD i 0
        = c * (score i - lbl i) / (|score i - lbl i| + c)
      ∧ ((⟨n, lbl, none, c⟩ : RegressionFairLoss).GetGradients score g h).2.getD i 0
        = c ^ 2 / (|score i - lbl i| + c) ^ 2)
    ∧ (((⟨n, lbl, some w, c⟩ : RegressionFairLoss).GetGradients score g h).1.getD i 0
        = c * (score i - lbl i) / (|score i - lbl i| + c) * w i
      ∧ ((⟨n, lbl, some w, c⟩ : RegressionFairLoss).GetGradients score g h).2.getD i 0
        = c ^ 2 / (|score i - lbl i| + c) ^ 2 * w i)
    ∧ (score i = lbl i → c = 1 →
        ((⟨n, lbl, none, c⟩ : RegressionFairLoss).GetGradients score g h).1.getD i 0
          = 0
        ∧ ((⟨n, lbl, none, c⟩ : RegressionFairLoss).GetGradients score g h).2.getD i 0
          = 1) := by
  have hgi : i < g.length := by rw [hg]; exact hi
  have hhi : i < h.length := by rw [hh]; exact hi
  have hsq : ∀ a : ℚ, a * a = a ^ 2 := fun a => (sq a).symm
  have h1 : ((⟨n, lbl, none, c⟩ : RegressionFairLoss).GetGradients score g h).1.getD i 0
      = c * (score i - lbl i) / (|score i - lbl i| + c) := by
    simpa [RegressionFairLoss.GetGradients, fairGradient]
      using overwrite_getD n _ g i hi hgi
  have h2 : ((⟨n, lbl, none, c⟩ : RegressionFairLoss).GetGradients score g h).2.getD i 0
      = c ^ 2 / (|score i - lbl i| + c) ^ 2 := by
    have := overwrite_getD n
      (fun j => fairHessian c (score j - lbl j)) h i hi hhi
    simpa [RegressionFairLoss.GetGradients, fairHessian, hsq] using this
  refine ⟨⟨h1, h2⟩, ⟨?_, ?_⟩, ?_⟩
  · simpa [RegressionFairLoss.GetGradients, fairGradient]
      using overwrite_getD n _ g i hi hgi
  · have := overwrite_getD n
      (fun j => fairHessian c (score j - lbl j) * w j) h i hi hhi
    simpa [RegressionFairLoss.GetGradients, fairHessian, hsq] using this
  · intro hx hc
    rw [h1, h2, hx, hc]
    norm_num

/-- Witness for C4 at `label ≡ 2`, `score ≡ 2` (so `x = 0`), `c = 1`,
`n = 1`, `i = 0`, buffers `[9]`: gradient `0`, hessian `1`. -/
theorem C4_fair_gradients_witness :
    ((0 : ℕ) < 1 ∧ ([9] : List ℚ).length = 1 ∧ (2 : ℚ) = 2 ∧ (1 : ℚ) = 1)
    ∧ ((⟨1, fun _ => 2, none, 1⟩ :
          RegressionFairLoss).GetGradients (fun _ => 2) [9] [9]).1.getD 0 0
      = 0
    ∧ ((⟨1, fun _ => 2, none, 1⟩ :
          RegressionFairLoss).GetGradients (fun _ => 2) [9] [9]).2.getD 0 0
      = 1 :=
  ⟨⟨by decide, by decide, rfl, rfl⟩,
    (C4_fair_gradients (fun _ => 2) (fun _ => 2) (fun _ => 1) 1 0 1
      (by decide) [9] [9] (by decide) (by decide)).2.2 rfl rfl⟩

/-- C2: For the Huber variant ("huber") with threshold `delta`, for every
index `i` with residual `d = score[i] − label[i]`: if `|d| ≤ delta` the
outputs equal the Squared-Error outputs exactly (gradient `d`, hessian `1`,
each `× weight[i]` when weighted); if `|d| > delta` the gradient equals
`+delta` when `d ≥ 0` and `−delta` otherwise (`× weight[i]` when weighted),
regardless of how large `|d|` grows, and the hessian is the smoothing
utility applied with that saturated gradient. -/
theorem C2_huber_gradients
    (lbl score w : ℕ → ℚ) (n i : ℕ) (delta eta : ℚ) (hi : i < n)
    (g h : List ℚ) (hg : g.length = n) (hh : h.length = n) :
    (|score i - lbl i| ≤ delta →
      ((⟨n, lbl, none, delta, eta⟩ :
          RegressionHuberLoss).GetGradients score g h).1.getD i 0
        = score i - lbl i
      ∧ ((⟨n, lbl, none, delta, eta⟩ :
          RegressionHuberLoss).GetGradients score g h).2.getD i 0
        = 1
      ∧ ((⟨n, lbl, some w, delta, eta⟩ :
          RegressionHuberLoss).GetGradients score g h).1.getD i 0
        = (score i - lbl i) * w i
      ∧ ((⟨n, lbl, some w, delta, eta⟩ :
          RegressionHuberLoss).GetGradients score g h).2.getD i 0
        = w i)
    ∧ (delta < |score i - lbl i| →
      ((⟨n, lbl, none, delta, eta⟩ :
          RegressionHuberLoss).GetGradients score g h).1.getD i 0
        = (if score i - lbl i ≥ 0 then delta else -delta)
      ∧ ((⟨n, lbl, none, delta, eta⟩ :
          RegressionHuberLoss).GetGradients score g h).2.getD i 0
        = ApproximateHessianWithGaussian (score i) (lbl i)
            (if score i - lbl i ≥ 0 then delta else -delta) eta 1
      ∧ ((⟨n, lbl, some w, delta, eta⟩ :
          RegressionHuberLoss).GetGradients score g h).1.getD i 0
        = (if score i - lbl i ≥ 0 then delta else -delta) * w i
      ∧ ((⟨n, lbl, some w, delta, eta⟩ :
          RegressionHuberLoss).GetGradients score g h).2.getD i 0
        = ApproximateHessianWithGaussian (score i) (lbl i)
            ((if score i - lbl i ≥ 0 then delta else -delta) * w i)
            eta (w i)) := by
  have hgi : i < g.length := by rw [hg]; exact hi
  have hhi : i < h.length := by rw [hh]; exact hi
  have eg1 := overwrite_getD n
    (fun j => huberGradient delta (score j - lbl j)) g i hi hgi
  have eg2 := overwrite_getD n
    (fun j =>
      if |score j - lbl j| ≤ delta
        then (score j - lbl j) * w j
      else if score j - lbl j ≥ 0 then delta * w j
      else -delta * w j) g i hi hgi
  have eh1 := overwrite_getD n
    (fun j =>
      if |score j - lbl j| ≤ delta then (1 : ℚ)
      else ApproximateHessianWithGaussian (score j) (lbl j)
        (if score j - lbl j ≥ 0 then delta else -delta) eta 1) h i hi hhi
  have eh2 := overwrite_getD n
    (fun j =>
      if |score j - lbl j| ≤ delta then w j
      else ApproximateHessianWithGaussian (score j) (lbl j)
        (if score j - lbl j ≥ 0 then delta * w j else -delta * w j)
        eta (w j)) h i hi hhi
  constructor
  · intro hle
    refine ⟨?_, ?_, ?_, ?_⟩
    · simpa [RegressionHuberLoss.GetGradients, huberGradient, hle] using eg1
    · simpa [RegressionHuberLoss.GetGradients, hle] using eh1
    · simpa [RegressionHuberLoss.GetGradients, hle] using eg2
    · simpa [RegressionHuberLoss.GetGradients, hle] using eh2
  · intro hlt
    have hnle : ¬ |score i - lbl i| ≤ delta := not_le.mpr hlt
    refine ⟨?_, ?_, ?_, ?_⟩
    · simpa [RegressionHuberLoss.GetGradients, huberGradient, hnle] using eg1
    · simpa [RegressionHuberLoss.GetGradients, hnle] using eh1
    · rw [show ((⟨n, lbl, some w, delta, eta⟩ :
          RegressionHuberLoss).GetGradients score g h).1.getD i 0
          = (if score i - lbl i ≥ 0 then delta * w i else -delta * w i) by
        simpa [RegressionHuberLoss.GetGradients, hnle] using eg2]
      by_cases hd : score i - lbl i ≥ 0 <;> simp [hd]
    · rw [show ((⟨n, lbl, some w, delta, eta⟩ :
          RegressionHuberLoss).GetGradients score g h).2.getD i 0
          = ApproximateHessianWithGaussian (score i) (lbl i)
              (if score i - lbl i ≥ 0 then delta * w i else -delta * w i)
              eta (w i) by
        simpa [RegressionHuberLoss.GetGradients, hnle] using eh2]
      by_cases hd : score i - lbl i ≥ 0 <;> simp [hd]

/-- Witness for C2 at `label ≡ 0`, `score ≡ 3`, `delta = 1`, `eta = 1`,
`n = 1`, `i = 0`, buffers `[8]`: the residual `3` exceeds `delta`, so the
unweighted gradient saturates at `1`. -/
theorem C2_huber_gradients_witness :
    ((0 : ℕ) < 1 ∧ ([8] : List ℚ).length = 1 ∧ (1 : ℚ) < |(3 : ℚ) - 0|)
    ∧ ((⟨1, fun _ => 0, none, 1, 1⟩ :
          RegressionHuberLoss).GetGradients (fun _ => 3) [8] [8]).1.getD 0 0
      = (if (3 : ℚ) - 0 ≥ 0 then (1 : ℚ) else -1) :=
  ⟨⟨by decide, by decide, by norm_num⟩,
    ((C2_huber_gradients (fun _ => 0) (fun _ => 3) (fun _ => 1) 1 0 1 1
      (by decide) [8] [8] (by decide) (by decide)).2 (by norm_num)).1⟩

/-- C10 (implicit): in the Huber variant the threshold comparison is
inclusive (`|d| ≤ delta` takes the quadratic branch), so at residuals with
`|d|` exactly equal to `delta` the quadratic and the linear branch formulas
agree — the written gradient is `d = ±delta`, also after the `× weight`
scaling of the weighted branch — and the gradient, as a function of the
residual, is `1`-Lipschitz and hence continuous at the region boundary
(witnessed in `ε`-`δ` form at `d = delta`). -/
theorem C10_huber_boundary
    (lbl score w : ℕ → ℚ) (n i : ℕ) (delta eta : ℚ) (hi : i < n)
    (g h : List ℚ) (hg : g.length = n) :
    (((⟨n, lbl, none, delta, eta⟩ :
        RegressionHuberLoss).GetGradients score g h).1.getD i 0
      = huberGradient delta (score i - lbl i))
    ∧ (|score i - lbl i| = delta →
        huberGradient delta (score i - lbl i) = score i - lbl i
        ∧ (if score i - lbl i ≥ 0 then delta else -delta) = score i - lbl i
        ∧ (if score i - lbl i ≥ 0 then delta * w i else -delta * w i)
            = (score i - lbl i) * w i)
    ∧ (0 ≤ delta → ∀ d1 d2 : ℚ,
        |huberGradient delta d1 - huberGradient delta d2| ≤ |d1 - d2|)
    ∧ (0 ≤ delta → ∀ ε : ℚ, 0 < ε → ∀ d : ℚ, |d - delta| < ε →
        |huberGradient delta d - huberGradient delta delta| < ε) := by
  have hgi : i < g.length := by rw [hg]; exact hi
  have clamp : ∀ hd : 0 ≤ delta, ∀ d : ℚ,
      huberGradient delta d = max (-delta) (min delta d) := by
    intro hd d
    unfold huberGradient
    by_cases hle : |d| ≤ delta
    · obtain ⟨hlo, hhi2⟩ := abs_le.mp hle
      rw [if_pos hle, min_eq_right hhi2, max_eq_right hlo]
    · rw [if_neg hle]
      push_neg at hle
      by_cases hd0 : d ≥ 0
      · rw [if_pos hd0]
        have hdd : delta < d := by rwa [abs_of_nonneg hd0] at hle
        rw [min_eq_left hdd.le, max_eq_right (neg_le_self hd)]
      · rw [if_neg hd0]
        push_neg at hd0
        have hdd : d < -delta := by
          have := hle
          rw [abs_of_neg hd0] at this
          linarith
        rw [min_eq_right (by linarith : d ≤ delta), max_eq_left hdd.le]
  have lip : 0 ≤ delta → ∀ d1 d2 : ℚ,
      |huberGradient delta d1 - huberGradient delta d2| ≤ |d1 - d2| := by
    intro hd d1 d2
    rw [clamp hd d1, clamp hd d2, max_comm (-delta) (min delta d1),
      max_comm (-delta) (min delta d2)]
    refine le_trans (abs_max_sub_max_le_abs _ _ _) ?_
    refine le_trans (abs_min_sub_min_le_max delta d1 delta d2) ?_
    simp [abs_nonneg]
  refine ⟨?_, ?_, lip, ?_⟩
  · simpa [RegressionHuberLoss.GetGradients] using overwrite_getD n
      (fun j => huberGradient delta (score j - lbl j)) g i hi hgi
  · intro hEq
    have hagree : (if score i - lbl i ≥ 0 then delta else -delta)
        = score i - lbl i := by
      by_cases hd0 : score i - lbl i ≥ 0
      · rw [if_pos hd0, ← hEq, abs_of_nonneg hd0]
      · push_neg at hd0
        rw [if_neg (not_le.mpr hd0), ← hEq, abs_of_neg hd0, neg_neg]
    refine ⟨?_, hagree, ?_⟩
    · unfold huberGradient
      rw [if_pos (le_of_eq hEq)]
    · by_cases hd0 : score i - lbl i ≥ 0
      · rw [if_pos hd0]
        rw [if_pos hd0] at hagree
        rw [hagree]
      · rw [if_neg hd0]
        rw [if_neg hd0] at hagree
        rw [← hagree]
  · intro hd ε hε d hclose
    exact lt_of_le_of_lt (lip hd d delta) hclose

/-- Witness for C10 at the boundary residual: `label ≡ 0`, `score ≡ 1`,
`delta = 1`, `eta = 1`, `n = 1`, `i = 0`, buffers `[8]`: the comparison is
inclusive, both branch formulas yield `1`, and the Lipschitz bound holds at
`d1 = 2`, `d2 = 0`. -/
theorem C10_huber_boundary_witness :
    ((0 : ℕ) < 1 ∧ |(1 : ℚ) - 0| = 1 ∧ (0 : ℚ) ≤ 1)
    ∧ huberGradient 1 ((1 : ℚ) - 0) = (1 : ℚ) - 0
    ∧ |huberGradient 1 (2 : ℚ) - huberGradient 1 0| ≤ |(2 : ℚ) - 0| := by
  have h := C10_huber_boundary (fun _ => 0) (fun _ => 1) (fun _ => 1) 1 0 1 1
    (by decide) [8] [8] (by decide)
  exact ⟨⟨by decide, by norm_num, by norm_num⟩,
    (h.2.1 (by norm_num)).1, h.2.2.1 (by norm_num) 2 0⟩

/-- C8: For every variant, `GetGradients` is deterministic and stateless:
two calls on the same initialized instance with identical score, label and
weight inputs produce identical gradient and hessian outputs (the second
call here even runs on buffers holding the first call's outputs), and a
call does not mutate the instance or the bound label/weight vectors. -/
theorem C8_deterministic_stateless
    (v : LossVariant) (score : ℕ → ℚ) (g h : List ℚ)
    (hg : g.length = v.numData) (hh : h.length = v.numData) :
    (v.GetGradientsCall score g h).2 = v
    ∧ ((v.GetGradientsCall score g h).2.GetGradientsCall score
        (v.GetGradientsCall score g h).1.1
        (v.GetGradientsCall score g h).1.2).1
      = (v.GetGradientsCall score g h).1 := by
  refine ⟨rfl, ?_⟩
  show v.GetGradients score (v.GetGradients score g h).1
      (v.GetGradients score g h).2 = v.GetGradients score g h
  exact GetGradients_ext v score _ _ g h
    (by rw [(GetGradients_length v score g h).1, hg])
    (by rw [(GetGradients_length v score g h).2, hh]) hg hh

/-- Witness for C8 on the Squared-Error variant with `num_data = 1`,
`label ≡ 0`, no weights, `score ≡ 1`, buffers `[3]`. -/
theorem C8_deterministic_stateless_witness :
    (([3] : List ℚ).length
        = (LossVariant.squaredError ⟨1, fun _ => 0, none⟩).numData)
    ∧ ((LossVariant.squaredError ⟨1, fun _ => 0, none⟩).GetGradientsCall
        (fun _ => 1) [3] [3]).2
      = LossVariant.squaredError ⟨1, fun _ => 0, none⟩ :=
  ⟨rfl,
    (C8_deterministic_stateless
      (LossVariant.squaredError ⟨1, fun _ => 0, none⟩)
      (fun _ => 1) [3] [3] rfl rfl).1⟩

/-- C9: `GetName()` returns exactly `"regression"` for the Squared-Error
variant, `"regression_l1"` for the Absolute-Error variant, `"huber"` for
the Huber variant and `"fair"` for the Fair variant, for every instance
state (hence independent of configuration and metadata), and a
`GetGradients` call leaves the name unchanged (independent of call
history). -/
theorem C9_get_name :
    (∀ st : RegressionL2loss,
      (LossVariant.squaredError st).GetName = "regression")
    ∧ (∀ st : RegressionL1loss,
      (LossVariant.absoluteError st).GetName = "regression_l1")
    ∧ (∀ st : RegressionHuberLoss,
      (LossVariant.huber st).GetName = "huber")
    ∧ (∀ st : RegressionFairLoss,
      (LossVariant.fair st).GetName = "fair")
    ∧ (∀ (v : LossVariant) (score : ℕ → ℚ) (g h : List ℚ),
      (v.GetGradientsCall score g h).2.GetName = v.GetName) :=
  ⟨fun _ => rfl, fun _ => rfl, fun _ => rfl, fun _ => rfl,
    fun _ _ _ _ => rfl⟩

/-- C5: The Derivative-Smoothing Utility, as used by the Absolute-Error
variant at every index and by the Huber variant at every index in the
linear region `|d| > delta`, returns a strictly positive value for all
inputs (never zero, never negative) given a positive bandwidth, a positive
weight and the nonzero gradient those call sites pass, so the hessians
those variants write are strictly positive. -/
theorem C5_smoothing_hessian_pos
    (lbl score w : ℕ → ℚ) (n i : ℕ) (delta eta : ℚ) (hi : i < n)
    (g h : List ℚ) (hg : g.length = n) (hh : h.length = n) :
    (∀ s l gr e ww : ℚ, 0 < e → 0 < ww → gr ≠ 0 →
      0 < ApproximateHessianWithGaussian s l gr e ww)
    ∧ (0 < eta →
      0 < ((⟨n, lbl, none, eta⟩ :
          RegressionL1loss).GetGradients score g h).2.getD i 0)
    ∧ (0 < eta → 0 < w i →
      0 < ((⟨n, lbl, some w, eta⟩ :
          RegressionL1loss).GetGradients score g h).2.getD i 0)
    ∧ (0 < eta → 0 < delta → delta < |score i - lbl i| →
      0 < ((⟨n, lbl, none, delta, eta⟩ :
          RegressionHuberLoss).GetGradients score g h).2.getD i 0)
    ∧ (0 < eta → 0 < delta → 0 < w i → delta < |score i - lbl i| →
      0 < ((⟨n, lbl, some w, delta, eta⟩ :
          RegressionHuberLoss).GetGradients score g h).2.getD i 0) := by
  have hhi : i < h.length := by rw [hh]; exact hi
  refine ⟨fun s l gr e ww he hww hgr =>
    ApproximateHessianWithGaussian_pos s l gr e ww he hww hgr,
    ?_, ?_, ?_, ?_⟩
  · intro heta
    rw [show ((⟨n, lbl, none, eta⟩ :
        RegressionL1loss).GetGradients score g h).2.getD i 0
        = ApproximateHessianWithGaussian (score i) (lbl i)
            (if score i - lbl i ≥ 0 then (1 : ℚ) else -1) eta 1 by
      simpa [RegressionL1loss.GetGradients] using overwrite_getD n
        (fun j => ApproximateHessianWithGaussian (score j) (lbl j)
          (if score j - lbl j ≥ 0 then (1 : ℚ) else -1) eta 1) h i hi hhi]
    refine ApproximateHessianWithGaussian_pos _ _ _ _ _ heta one_pos ?_
    split <;> norm_num
  · intro heta hwi
    rw [show ((⟨n, lbl, some w, eta⟩ :
        RegressionL1loss).GetGradients score g h).2.getD i 0
        = ApproximateHessianWithGaussian (score i) (lbl i)
            (if score i - lbl i ≥ 0 then w i else -(w i)) eta (w i) by
      simpa [RegressionL1loss.GetGradients] using overwrite_getD n
        (fun j => ApproximateHessianWithGaussian (score j) (lbl j)
          (if score j - lbl j ≥ 0 then w j else -(w j)) eta (w j)) h i hi hhi]
    refine ApproximateHessianWithGaussian_pos _ _ _ _ _ heta hwi ?_
    split
    · exact ne_of_gt hwi
    · exact neg_ne_zero.mpr (ne_of_gt hwi)
  · intro heta hdelta hlin
    have hnle : ¬ |score i - lbl i| ≤ delta := not_le.mpr hlin
    rw [show ((⟨n, lbl, none, delta, eta⟩ :
        RegressionHuberLoss).GetGradients score g h).2.getD i 0
        = ApproximateHessianWithGaussian (score i) (lbl i)
            (if score i - lbl i ≥ 0 then delta else -delta) eta 1 by
      simpa [RegressionHuberLoss.GetGradients, hnle] using overwrite_getD n
        (fun j =>
          if |score j - lbl j| ≤ delta then (1 : ℚ)
          else ApproximateHessianWithGaussian (score j) (lbl j)
            (if score j - lbl j ≥ 0 then delta else -delta) eta 1) h i hi hhi]
    refine ApproximateHessianWithGaussian_pos _ _ _ _ _ heta one_pos ?_
    split
    · exact ne_of_gt hdelta
    · exact ne_of_lt (neg_lt_zero.mpr hdelta)
  · intro heta hdelta hwi hlin
    have hnle : ¬ |score i - lbl i| ≤ delta := not_le.mpr hlin
    rw [show ((⟨n, lbl, some w, delta, eta⟩ :
        RegressionHuberLoss).GetGradients score g h).2.getD i 0
        = ApproximateHessianWithGaussian (score i) (lbl i)
            (if score i - lbl i ≥ 0 then delta * w i else -delta * w i)
            eta (w i) by
      simpa [RegressionHuberLoss.GetGradients, hnle] using overwrite_getD n
        (fun j =>
          if |score j - lbl j| ≤ delta then w j
          else ApproximateHessianWithGaussian (score j) (lbl j)
            (if score j - lbl j ≥ 0 then delta * w j else -delta * w j)
            eta (w j)) h i hi hhi]
    refine ApproximateHessianWithGaussian_pos _ _ _ _ _ heta hwi ?_
    split
    · exact ne_of_gt (mul_pos hdelta hwi)
    · exact mul_ne_zero (neg_ne_zero.mpr (ne_of_gt hdelta)) (ne_of_gt hwi)

/-- Witness for C5 with `label ≡ 0`, `score ≡ 5`, `weight ≡ 2`,
`delta = 1`, `eta = 1`, `n = 1`, `i = 0`, buffers `[6]`: the residual `5`
lies in the Huber linear region and the weighted Huber hessian is
strictly positive. -/
theorem C5_smoothing_hessian_pos_witness :
    ((0 : ℕ) < 1 ∧ (0 : ℚ) < 1 ∧ (0 : ℚ) < 2 ∧ (1 : ℚ) < |(5 : ℚ) - 0|)
    ∧ 0 < ((⟨1, fun _ => 0, some (fun _ => 2), 1, 1⟩ :
        RegressionHuberLoss).GetGradients (fun _ => 5) [6] [6]).2.getD 0 0 :=
  ⟨⟨by decide, by norm_num, by norm_num, by norm_num⟩,
    (C5_smoothing_hessian_pos (fun _ => 0) (fun _ => 5) (fun _ => 2) 1 0 1 1
      (by decide) [6] [6] (by decide) (by decide)).2.2.2.2
      (by norm_num) (by norm_num) (by norm_num) (by norm_num)⟩

/-- C7: For every variant, a single `GetGradients` call writes both
`gradients[i]` and `hessians[i]` for every index `i` in `[0, num_data)`
— on pre-sized buffers the output vectors have length `num_data` and every
entry below `num_data` is freshly written — and each written value is a
function only of `score[i]`, the bound `label[i]`, the bound `weight[i]`
(if present) and the fixed configuration (`gradPoint` / `hessPoint` take
exactly those arguments, so there is no cross-index dependence and no
dependence on the buffers' previous contents). -/
theorem C7_full_overwrite_pointwise
    (v : LossVariant) (score : ℕ → ℚ) (g h : List ℚ)
    (hg : g.length = v.numData) (hh : h.length = v.numData)
    (i : ℕ) (hi : i < v.numData) :
    (v.GetGradients score g h).1.length = v.numData
    ∧ (v.GetGradients score g h).2.length = v.numData
    ∧ (v.GetGradients score g h).1.getD i 0
      = gradPoint v.kind (score i) (v.labelAt i)
          (v.weightsOpt.map (fun w => w i))
    ∧ (v.GetGradients score g h).2.getD i 0
      = hessPoint v.kind (score i) (v.labelAt i)
          (v.weightsOpt.map (fun w => w i)) := by
  cases v <;> rename_i st <;>
    simp only [LossVariant.numData] at hg hh hi <;>
    cases hw : st.weights <;>
    simp [LossVariant.GetGradients, LossVariant.numData, LossVariant.labelAt,
      LossVariant.weightsOpt, LossVariant.kind, gradPoint, hessPoint,
      RegressionL2loss.GetGradients, RegressionL1loss.GetGradients,
      RegressionHuberLoss.GetGradients, RegressionFairLoss.GetGradients,
      hw, overwrite_length, overwrite_getD, overwrite_getElem, hg, hh, hi]

/-- Witness for C7 on the Fair variant with `num_data = 1`, `label ≡ 0`,
no weights, `c = 1`, `score ≡ 1`, buffers `[2]`, `i = 0`. -/
theorem C7_full_overwrite_pointwise_witness :
    (([2] : List ℚ).length = (LossVariant.fair ⟨1, fun _ => 0, none, 1⟩).numData
      ∧ (0 : ℕ) < (LossVariant.fair ⟨1, fun _ => 0, none, 1⟩).numData)
    ∧ ((LossVariant.fair ⟨1, fun _ => 0, none, 1⟩).GetGradients
        (fun _ => 1) [2] [2]).1.length
      = (LossVariant.fair ⟨1, fun _ => 0, none, 1⟩).numData :=
  ⟨⟨rfl, by decide⟩,
    (C7_full_overwrite_pointwise (LossVariant.fair ⟨1, fun _ => 0, none, 1⟩)
      (fun _ => 1) [2] [2] rfl rfl 0 (by decide)).1⟩

/-- C6: For the Fair variant with `c > 0` and positive weights, for every
index `i`: `|gradients[i]| < c·weight[i]` strictly, and the hessian, as
the function `x ↦ fairHessian c x · weight[i]` of the residual that
`GetGradients` writes at `i`, is strictly decreasing in `|x|`, approaches
`0` as `|x| → ∞` (for every `ε > 0` some bound `M` on `|x|` forces it
below `ε`), and equals `weight[i]` at `x = 0`. -/
theorem C6_fair_bounds
    (lbl score w : ℕ → ℚ) (n i : ℕ) (c : ℚ) (hi : i < n)
    (g h : List ℚ) (hg : g.length = n) (hh : h.length = n) :
    (((⟨n, lbl, some w, c⟩ : RegressionFairLoss).GetGradients score g h).1.getD i 0
      = fairGradient c (score i - lbl i) * w i)
    ∧ (((⟨n, lbl, some w, c⟩ : RegressionFairLoss).GetGradients score g h).2.getD i 0
      = fairHessian c (score i - lbl i) * w i)
    ∧ (0 < c → 0 < w i →
      |((⟨n, lbl, some w, c⟩ : RegressionFairLoss).GetGradients score g h).1.getD i 0|
        < c * w i)
    ∧ (0 < c → 0 < w i → ∀ x1 x2 : ℚ, |x1| < |x2| →
      fairHessian c x2 * w i < fairHessian c x1 * w i)
    ∧ (0 < c → 0 < w i → ∀ ε : ℚ, 0 < ε → ∃ M : ℚ, ∀ x : ℚ, M < |x| →
      fairHessian c x * w i < ε)
    ∧ (0 < c → fairHessian c 0 * w i = w i) := by
  have hgi : i < g.length := by rw [hg]; exact hi
  have hhi : i < h.length := by rw [hh]; exact hi
  have a1 : ((⟨n, lbl, some w, c⟩ :
      RegressionFairLoss).GetGradients score g h).1.getD i 0
      = fairGradient c (score i - lbl i) * w i := by
    simpa [RegressionFairLoss.GetGradients] using overwrite_getD n
      (fun j => fairGradient c (score j - lbl j) * w j) g i hi hgi
  have a2 : ((⟨n, lbl, some w, c⟩ :
      RegressionFairLoss).GetGradients score g h).2.getD i 0
      = fairHessian c (score i - lbl i) * w i := by
    simpa [RegressionFairLoss.GetGradients] using overwrite_getD n
      (fun j => fairHessian c (score j - lbl j) * w j) h i hi hhi
  refine ⟨a1, a2, ?_, ?_, ?_, ?_⟩
  · intro hc hwi
    rw [a1]
    have hden : (0 : ℚ) < |score i - lbl i| + c := by positivity
    rw [abs_mul, abs_of_pos hwi, fairGradient, abs_div, abs_of_pos hden,
      abs_mul, abs_of_pos hc]
    refine mul_lt_mul_of_pos_right ?_ hwi
    rw [div_lt_iff₀ hden]
    nlinarith [mul_pos hc hc]
  · intro hc hwi x1 x2 h12
    unfold fairHessian
    have hd1 : (0 : ℚ) < |x1| + c := by positivity
    have hd2 : (0 : ℚ) < |x2| + c := by positivity
    refine mul_lt_mul_of_pos_right ?_ hwi
    refine div_lt_div_of_pos_left (mul_pos hc hc) (mul_pos hd1 hd1) ?_
    nlinarith [abs_nonneg x1, abs_nonneg x2]
  · intro hc hwi ε hε
    refine ⟨c * w i / ε, fun x hx => ?_⟩
    unfold fairHessian
    have hden : (0 : ℚ) < |x| + c := by positivity
    have hεx : c * w i < |x| * ε := (div_lt_iff₀ hε).mp hx
    rw [div_mul_eq_mul_div, div_lt_iff₀ (mul_pos hden hden)]
    nlinarith [mul_lt_mul_of_pos_left hεx hc, abs_nonneg x,
      mul_pos hc hwi, mul_pos (mul_pos hc hc) hwi, sq_nonneg (|x| + c)]
  · intro hc
    have : fairHessian c 0 = 1 := by
      simp [fairHessian, div_self (ne_of_gt (mul_pos hc hc))]
    rw [this, one_mul]

/-- Witness for C6 at `label ≡ 0`, `score ≡ 3`, `weight ≡ 2`, `c = 1`,
`n = 1`, `i = 0`, buffers `[4]`: the gradient magnitude is below
`c · weight = 2`. -/
theorem C6_fair_bounds_witness :
    ((0 : ℕ) < 1 ∧ (0 : ℚ) < 1 ∧ (0 : ℚ) < 2)
    ∧ |((⟨1, fun _ => 0, some (fun _ => 2), 1⟩ :
        RegressionFairLoss).GetGradients (fun _ => 3) [4] [4]).1.getD 0 0|
      < (1 : ℚ) * 2 :=
  ⟨⟨by decide, by norm_num, by norm_num⟩,
    (C6_fair_bounds (fun _ => 0) (fun _ => 3) (fun _ => 2) 1 0 1
      (by decide) [4] [4] (by decide) (by decide)).2.2.1
      (by norm_num) (by norm_num)⟩

end LightGBM
